import Mathlib

/-!
Verification of the streaming chat client core of the Tactus repository
(`src/utils/api.ts`, `src/utils/tools.ts`).  The TypeScript functions are
shallowly embedded as executable Lean definitions; claims about the spec are
settled as theorems about those definitions.

Conventions used throughout the embedding:
* JavaScript string truthiness (`if (s)`) is modelled as `s ≠ ""`;
  optional values are `Option`.
* The `Map` objects of the aggregator preserve insertion order, so they are
  modelled as association lists updated in place.
* Machine numbers that can only be small naturals are `Nat`; the running
  brace counter of `isJsonClosed`, which can go negative, is `Int`.
-/

namespace Tactus

set_option linter.unusedVariables false

/-! ## Error taxonomy and classifier (`parseError`, api.ts lines 36-118) -/

/-- The closed error taxonomy of `ERROR_MESSAGES` / `ApiError.code`. -/
inductive ErrCode where
  | TIMEOUT
  | NETWORK_ERROR
  | AUTH_ERROR
  | RATE_LIMIT
  | QUOTA_EXCEEDED
  | MODEL_NOT_FOUND
  | INVALID_REQUEST
  | SERVER_ERROR
  | TOOL_PARSE_ERROR
  | TOOL_EXECUTION_ERROR
  | UNKNOWN
deriving DecidableEq

/-- An `ApiError`: classification code plus retryable flag.  The human message
is the fixed `ERROR_MESSAGES` text keyed by the code, hence omitted. -/
structure ApiErr where
  code : ErrCode
  retryable : Bool
deriving DecidableEq

/-- The possible underlying failures fed to `parseError` (api.ts line 64):
an already-classified `ApiError`, a DOM `AbortError`, an OpenAI SDK
`APIError` carrying an optional HTTP status and a message, a `TypeError`
(the class fetch throws for network-layer failures), or any other error,
reduced to its message string. -/
inductive RawError where
  | alreadyApi (e : ApiErr)
  | abortSignal
  | apiStatus (status : Option Nat) (message : String)
  | typeErr (message : String)
  | otherErr (message : String)

/-- `startsList hay needle`: `needle` occurs at the head of `hay`. -/
def startsList : List Char → List Char → Bool
  | _, [] => true
  | [], _ :: _ => false
  | a :: as, b :: bs => a == b && startsList as bs

/-- JavaScript `hay.includes(needle)` on the underlying character lists. -/
def hasList : List Char → List Char → Bool
  | [], needle => needle.isEmpty
  | a :: as, needle => startsList (a :: as) needle || hasList as needle

/-- JavaScript `hay.includes(needle)` for strings. -/
def strHas (hay needle : String) : Bool := hasList hay.data needle.data

/-- JavaScript `message.toLowerCase()`: lower-case every character
(character-wise map, kept kernel-reducible). -/
def lowerStr (s : String) : String := ⟨s.data.map Char.toLower⟩

/-- The keyword fallback at the end of `parseError` (api.ts lines 105-117):
inspect the lowercased message for timeout / network keywords, otherwise
classify as UNKNOWN. -/
def keywordClassify (message : String) : ApiErr :=
  let lm := lowerStr message
  if strHas lm "timeout" then ⟨.TIMEOUT, true⟩
  else if strHas lm "network" || strHas lm "econnrefused" || strHas lm "enotfound" then
    ⟨.NETWORK_ERROR, true⟩
  else ⟨.UNKNOWN, false⟩

/-- The quota/billing wording test on a 429 message (api.ts line 84). -/
def quotaWording (message : String) : Bool :=
  let m := lowerStr message
  strHas m "quota" || strHas m "billing" || strHas m "insufficient"

/-- `parseError` (api.ts lines 64-118), case by case in source order. -/
def parseError : RawError → ApiErr
  | .alreadyApi e => e
  | .abortSignal => ⟨.TIMEOUT, true⟩
  | .apiStatus status message =>
    if status = some 401 ∨ status = some 403 then ⟨.AUTH_ERROR, false⟩
    else if status = some 429 then
      if quotaWording message then ⟨.QUOTA_EXCEEDED, false⟩
      else ⟨.RATE_LIMIT, true⟩
    else if status = some 404 then ⟨.MODEL_NOT_FOUND, false⟩
    else if status = some 400 then ⟨.INVALID_REQUEST, false⟩
    else if (match status with | some s => decide (500 ≤ s) | none => false) = true then ⟨.SERVER_ERROR, true⟩
    else keywordClassify message
  | .typeErr message =>
    if strHas message "fetch" || strHas message "network" then ⟨.NETWORK_ERROR, true⟩
    else keywordClassify message
  | .otherErr message => keywordClassify message

/-! ## The already-closed-JSON guard (`isJsonClosed`, api.ts lines 216-234) -/

/-- Scanner state of `isJsonClosed`: running brace count, whether the scan
currently believes it is inside a quoted string, and the previous character
(`str[i-1]`, `none` at position 0). -/
structure JState where
  brace : Int
  inStr : Bool
  prev : Option Char
deriving DecidableEq

/-- One step of the `isJsonClosed` loop body (api.ts lines 222-231). -/
def jStep (st : JState) (c : Char) : JState :=
  if c = '"' ∧ st.prev ≠ some '\\' then ⟨st.brace, !st.inStr, some c⟩
  else if st.inStr then ⟨st.brace, st.inStr, some c⟩
  else if c = '\x7b' then ⟨st.brace + 1, st.inStr, some c⟩
  else if c = '\x7d' then ⟨st.brace - 1, st.inStr, some c⟩
  else ⟨st.brace, st.inStr, some c⟩

/-- Run the `isJsonClosed` scanner from a given state. -/
def jScanFrom (st : JState) (l : List Char) : JState := l.foldl jStep st

/-- `isJsonClosed` (api.ts lines 216-234): empty string is not closed;
otherwise the net brace count outside quoted strings must be zero and the
string must contain an opening brace. -/
def isJsonClosed (s : String) : Bool :=
  if s.data.isEmpty then false
  else (jScanFrom ⟨0, false, none⟩ s.data).brace == 0 && s.data.contains '\x7b'

/-! ## Argument-fragment concatenation (api.ts lines 430-459)

Both the known-id branch (lines 431-442) and the no-id branch (lines
445-459) append an incoming argument fragment to the stored buffer with the
same guard: a falsy (empty) fragment is ignored, and a fragment is dropped
when the buffer is already a closed JSON object. -/

/-- One fragment arriving for an existing buffer. -/
def argStep (buf frag : String) : String :=
  if frag = "" then buf
  else if isJsonClosed buf then buf
  else buf ++ frag

/-- Feeding successive argument fragments for one tool call: the first
fragment initialises the buffer (creation of the entry, api.ts line 425),
the rest go through `argStep`. -/
def aggFeed (first : String) (rest : List String) : String := rest.foldl argStep first

/-- Auxiliary: appending to an already-closed buffer is the identity. -/
theorem argStep_of_closed {buf : String} (h : isJsonClosed buf = true) (frag : String) :
    argStep buf frag = buf := by
  unfold argStep
  by_cases hf : frag = "" <;> simp [hf, h]

/-- Auxiliary: a closed buffer absorbs any further fragment list. -/
theorem aggFeed_of_closed {buf : String} (h : isJsonClosed buf = true) (rest : List String) :
    aggFeed buf rest = buf := by
  induction rest with
  | nil => rfl
  | cons c cs ih =>
    show aggFeed (argStep buf c) cs = buf
    rw [argStep_of_closed h, ih]

/-- C6: if the argument fragment `"{}"` for one tool call (same slot index and
id) is delivered `k ≥ 1` times, the final argument buffer is exactly `"{}"`:
the first delivery initialises the buffer, and every further delivery is
dropped by the already-closed-JSON guard, so no k-fold concatenation occurs. -/
theorem empty_object_retransmission_collapses (k : Nat) (_hk : 1 ≤ k) :
    aggFeed "\x7b\x7d" (List.replicate (k - 1) "\x7b\x7d") = "\x7b\x7d" := by
  have hclosed : isJsonClosed "\x7b\x7d" = true := by decide
  exact aggFeed_of_closed hclosed _

/-- Witness for C6 at k = 3: three retransmissions of `"{}"` still yield `"{}"`. -/
theorem empty_object_retransmission_collapses_witness :
    1 ≤ 3 ∧ aggFeed "\x7b\x7d" (List.replicate (3 - 1) "\x7b\x7d") = "\x7b\x7d" :=
  ⟨by decide, empty_object_retransmission_collapses 3 (by decide)⟩

/-- C5: the error classifier follows the documented precedence: explicit
abort → TIMEOUT(retryable); HTTP 401/403 → AUTH_ERROR(non-retryable);
HTTP 429 with quota/billing wording (the keywords `quota`, `billing`,
`insufficient` on the lowercased message) → QUOTA_EXCEEDED(non-retryable),
other 429 → RATE_LIMIT(retryable); 404 → MODEL_NOT_FOUND; 400 →
INVALID_REQUEST; status ≥ 500 → SERVER_ERROR(retryable); a network-layer
`TypeError` mentioning `fetch`/`network` → NETWORK_ERROR(retryable); every
remaining case falls to `timeout`/`network` keyword matching on the message
text before UNKNOWN(non-retryable).  The status conjuncts hold for every
message, so status-code rules take precedence over keyword matching. -/
theorem parseError_follows_precedence (msg : String) (st : Nat) :
    parseError .abortSignal = ⟨.TIMEOUT, true⟩
    ∧ (st = 401 ∨ st = 403 → parseError (.apiStatus (some st) msg) = ⟨.AUTH_ERROR, false⟩)
    ∧ (quotaWording msg = true → parseError (.apiStatus (some 429) msg) = ⟨.QUOTA_EXCEEDED, false⟩)
    ∧ (quotaWording msg = false → parseError (.apiStatus (some 429) msg) = ⟨.RATE_LIMIT, true⟩)
    ∧ parseError (.apiStatus (some 404) msg) = ⟨.MODEL_NOT_FOUND, false⟩
    ∧ parseError (.apiStatus (some 400) msg) = ⟨.INVALID_REQUEST, false⟩
    ∧ (500 ≤ st → parseError (.apiStatus (some st) msg) = ⟨.SERVER_ERROR, true⟩)
    ∧ (strHas msg "fetch" = true ∨ strHas msg "network" = true →
        parseError (.typeErr msg) = ⟨.NETWORK_ERROR, true⟩)
    ∧ (strHas msg "fetch" = false → strHas msg "network" = false →
        parseError (.typeErr msg) = keywordClassify msg)
    ∧ parseError (.otherErr msg) = keywordClassify msg
    ∧ (st ≠ 401 → st ≠ 403 → st ≠ 429 → st ≠ 404 → st ≠ 400 → st < 500 →
        parseError (.apiStatus (some st) msg) = keywordClassify msg)
    ∧ parseError (.apiStatus none msg) = keywordClassify msg
    ∧ (strHas (lowerStr msg) "timeout" = true → keywordClassify msg = ⟨.TIMEOUT, true⟩)
    ∧ (strHas (lowerStr msg) "timeout" = false →
        strHas (lowerStr msg) "network" = true ∨ strHas (lowerStr msg) "econnrefused" = true ∨
          strHas (lowerStr msg) "enotfound" = true →
        keywordClassify msg = ⟨.NETWORK_ERROR, true⟩)
    ∧ (strHas (lowerStr msg) "timeout" = false → strHas (lowerStr msg) "network" = false →
        strHas (lowerStr msg) "econnrefused" = false → strHas (lowerStr msg) "enotfound" = false →
        keywordClassify msg = ⟨.UNKNOWN, false⟩) := by
  refine ⟨rfl, ?_, ?_, ?_, ?_, ?_, ?_, ?_, ?_, rfl, ?_, rfl, ?_, ?_, ?_⟩
  · rintro (rfl | rfl) <;> rfl
  · intro h; simp [parseError, h]
  · intro h; simp [parseError, h]
  · simp [parseError]
  · simp [parseError]
  · intro h
    have n1 : st ≠ 401 := by omega
    have n2 : st ≠ 403 := by omega
    have n3 : st ≠ 429 := by omega
    have n4 : st ≠ 404 := by omega
    have n5 : st ≠ 400 := by omega
    simp [parseError, n1, n2, n3, n4, n5, h]
  · intro h
    rcases h with h | h <;> simp [parseError, h]
  · intro h1 h2; simp [parseError, h1, h2]
  · intro h1 h2 h3 h4 h5 h6
    have e5 : ¬(500 ≤ st) := by omega
    simp [parseError, h1, h2, h3, h4, h5, e5]
  · intro h; simp [keywordClassify, h]
  · intro h1 h2
    rcases h2 with h | h | h <;> simp [keywordClassify, h1, h]
  · intro h1 h2 h3 h4; simp [keywordClassify, h1, h2, h3, h4]

/-- Witness for C5: the precedence theorem applied at concrete inputs —
a 401, a quota-worded 429, a 503 whose message also matches the timeout
keyword (status wins), a network-layer `TypeError`, and a keywordless
unknown failure. -/
theorem parseError_follows_precedence_witness :
    parseError (.apiStatus (some 401) "nope") = ⟨.AUTH_ERROR, false⟩
    ∧ parseError (.apiStatus (some 429) "Insufficient quota") = ⟨.QUOTA_EXCEEDED, false⟩
    ∧ parseError (.apiStatus (some 503) "upstream timeout") = ⟨.SERVER_ERROR, true⟩
    ∧ parseError (.typeErr "Failed to fetch") = ⟨.NETWORK_ERROR, true⟩
    ∧ parseError (.otherErr "something odd happened") = ⟨.UNKNOWN, false⟩ := by
  refine ⟨?_, ?_, ?_, ?_, ?_⟩
  · exact (parseError_follows_precedence "nope" 401).2.1 (Or.inl rfl)
  · exact (parseError_follows_precedence "Insufficient quota" 429).2.2.1 (by decide)
  · exact (parseError_follows_precedence "upstream timeout" 503).2.2.2.2.2.2.1 (by decide)
  · exact (parseError_follows_precedence "Failed to fetch" 0).2.2.2.2.2.2.2.1 (Or.inl (by decide))
  · have h := parseError_follows_precedence "something odd happened" 0
    rw [h.2.2.2.2.2.2.2.2.2.1]
    exact h.2.2.2.2.2.2.2.2.2.2.2.2.2.2 (by decide) (by decide) (by decide) (by decide)

/-! ## The tool-call aggregator (api.ts lines 396-478)

`toolCallsByIndex : Map<number, Map<string, {id, name, arguments}>>` is a
two-level insertion-ordered map, modelled as nested association lists.  A
missing `id` / `function.name` / `function.arguments` field and the empty
string are both falsy in the source, so each is modelled as a plain string
with `""` meaning absent. -/

/-- One stored tool-call fragment: id, resolved name, argument buffer. -/
structure TCEntry where
  id : String
  name : String
  arguments : String
deriving DecidableEq

/-- One streamed tool-call delta: slot index plus optional id, name fragment
and argument fragment (`""` = field absent). -/
structure Delta where
  index : Nat
  id : String
  name : String
  args : String

/-- The aggregator state: slots in insertion order, each holding its
fragments in creation order. -/
abbrev AggState := List (Nat × List TCEntry)

/-- Updating an existing fragment with an incoming delta (api.ts lines
431-442 for the id branch, 449-458 for the no-id branch — the bodies are
identical): a truthy name overwrites, a truthy argument fragment is appended
unless the buffer is already closed JSON. -/
def updEntry (e : TCEntry) (name args : String) : TCEntry :=
  { e with
    name := if name ≠ "" then name else e.name
    arguments := if args ≠ "" ∧ isJsonClosed e.arguments = false
                 then e.arguments ++ args else e.arguments }

/-- Update the most recently created fragment of a slot (api.ts lines
445-459); a slot with no fragments ignores the delta. -/
def updLast (f : TCEntry → TCEntry) : List TCEntry → List TCEntry
  | [] => []
  | [e] => [f e]
  | e :: es => e :: updLast f es

/-- Does this slot already hold a fragment with the given id? -/
def hasId (es : List TCEntry) (i : String) : Bool := es.any (fun e => e.id == i)

/-- Process one delta against one slot's fragment list (api.ts lines 420-460). -/
def procSlot (es : List TCEntry) (d : Delta) : List TCEntry :=
  if d.id ≠ "" then
    if hasId es d.id then
      es.map (fun e => if e.id == d.id then updEntry e d.name d.args else e)
    else es ++ [⟨d.id, d.name, d.args⟩]
  else updLast (fun e => updEntry e d.name d.args) es

/-- Process one delta against the two-level map (api.ts lines 411-460): an
unseen slot index is appended (insertion order), an existing one is updated
in place. -/
def procDelta (st : AggState) (d : Delta) : AggState :=
  if (List.any st (fun p => p.1 == d.index)) then
    List.map (fun p : Nat × List TCEntry =>
      if p.1 == d.index then (p.1, procSlot p.2 d) else p) st
  else st ++ [(d.index, procSlot [] d)]

/-- Run the aggregator over a complete delta stream. -/
def aggRun (ds : List Delta) : AggState := ds.foldl procDelta []

/-- End-of-stream flattening (api.ts lines 470-478): iterate slots in map
(insertion) order, fragments in creation order, keeping only fragments with
a truthy id and name. -/
def flattenCalls (st : AggState) : List TCEntry :=
  List.foldr (fun (p : Nat × List TCEntry) acc =>
    p.2.filter (fun e => e.id ≠ "" && e.name ≠ "") ++ acc) [] st

/-- The whole aggregation pipeline for one streamed response. -/
def aggregate (ds : List Delta) : List TCEntry := flattenCalls (aggRun ds)

/-- C7 counterexample: when slot index 1 appears on the wire before slot
index 0, the flattened ToolCall list follows `Map` insertion order, not
numeric slot order — the slot-1 call comes out first.  So "ordered by slot
order" (numeric slot index) is false as stated. -/
theorem flatten_not_numeric_slot_order :
    aggregate [⟨1, "b", "g", "\x7b\x7d"⟩, ⟨0, "a", "f", "\x7b\x7d"⟩] =
      [⟨"b", "g", "\x7b\x7d"⟩, ⟨"a", "f", "\x7b\x7d"⟩]
    ∧ aggregate [⟨1, "b", "g", "\x7b\x7d"⟩, ⟨0, "a", "f", "\x7b\x7d"⟩] ≠
      [⟨"a", "f", "\x7b\x7d"⟩, ⟨"b", "g", "\x7b\x7d"⟩] := by
  constructor <;> decide

/-- C7 (amended: ordering is slot *first-appearance* order, then creation
order within a slot): two distinct ids emitted at the same slot index yield
two separate ToolCalls whose buffers are never merged — a later no-id
continuation fragment extends only the most recently created fragment, the
first id's buffer stays untouched; at end-of-stream the flattened list keeps
exactly the fragments with non-empty id and non-empty name (the unnamed
fragment at slot `j` is dropped), slots in first-appearance order and
fragments in creation order within a slot. -/
theorem two_ids_same_slot_separate_calls
    (i j : Nat) (id1 id2 id3 n1 n2 a1 a2 a3 a4 : String)
    (hij : i ≠ j) (h1 : id1 ≠ "") (h2 : id2 ≠ "") (h3 : id3 ≠ "")
    (h12 : id1 ≠ id2) (hn1 : n1 ≠ "") (hn2 : n2 ≠ "")
    (hc : isJsonClosed a2 = false) (ha3 : a3 ≠ "") :
    aggregate [⟨i, id1, n1, a1⟩, ⟨i, id2, n2, a2⟩, ⟨i, "", "", a3⟩, ⟨j, id3, "", a4⟩] =
      [⟨id1, n1, a1⟩, ⟨id2, n2, a2 ++ a3⟩] := by
  have bii : (i == i) = true := beq_self_eq_true i
  have bij : (i == j) = false := beq_eq_false_iff_ne.mpr hij
  have b12 : (id1 == id2) = false := beq_eq_false_iff_ne.mpr (fun h => h12 h)
  simp [aggregate, aggRun, procDelta, procSlot, hasId, updEntry, updLast,
    flattenCalls, bii, bij, b12, h1, h2, h3, h12, hn1, hn2, hc, ha3]

/-- Witness for C7's amended theorem at concrete fragments. -/
theorem two_ids_same_slot_separate_calls_witness :
    aggregate [⟨0, "call_1", "f", "\x7b\"x\""⟩, ⟨0, "call_2", "g", "\x7b\"y\""⟩,
               ⟨0, "", "", ":1\x7d"⟩, ⟨7, "call_3", "", "\x7b\x7d"⟩] =
      [⟨"call_1", "f", "\x7b\"x\""⟩, ⟨"call_2", "g", "\x7b\"y\"" ++ ":1\x7d"⟩] :=
  two_ids_same_slot_separate_calls 0 7 "call_1" "call_2" "call_3" "f" "g"
    "\x7b\"x\"" "\x7b\"y\"" ":1\x7d" "\x7b\x7d"
    (by decide) (by decide) (by decide) (by decide) (by decide) (by decide) (by decide)
    (by decide) (by decide)

/-! ## Transport with retry (api.ts lines 21-33 and 317-377)

The retry loop `for (attempt = 0; attempt <= maxRetries; attempt++)` is
embedded with the outcome of each physical attempt supplied by an oracle
`outs : Nat → AttemptOut` (attempt number ↦ what the network did).  Delays
and jitter only affect timing, not control flow, and are not modelled. -/

/-- `RetryConfig` (api.ts lines 21-26). -/
structure RetryConfig where
  maxRetries : Nat
  baseDelay : Nat
  maxDelay : Nat
  timeout : Nat

/-- `DEFAULT_RETRY_CONFIG` (api.ts lines 28-33). -/
def defaultRetryConfig : RetryConfig := ⟨3, 1000, 10000, 60000⟩

/-- What one physical attempt does: the request succeeds (a stream is
obtained) or throws some underlying error. -/
inductive AttemptOut where
  | ok
  | fail (e : RawError)

/-- Consumer-visible events emitted by the retry loop: `error` with its
retrying flag and attempt number, and the `thinking` progress notice
before a backoff sleep. -/
inductive SendEvent where
  | errEvent (e : ApiErr) (retrying : Bool) (attempt : Nat)
  | thinkingEvent
deriving DecidableEq

/-- Result of one logical send: success or a typed failure, with the number
of physical attempts issued and the events emitted along the way. -/
inductive SendRes where
  | success (attemptsUsed : Nat) (events : List SendEvent)
  | failure (e : ApiErr) (attemptsUsed : Nat) (events : List SendEvent)
deriving DecidableEq

def SendRes.attemptsUsed : SendRes → Nat
  | .success n _ => n
  | .failure _ n _ => n

def SendRes.events : SendRes → List SendEvent
  | .success _ evs => evs
  | .failure _ _ evs => evs

def SendRes.isSuccess : SendRes → Bool
  | .success _ _ => true
  | .failure _ _ _ => false

def SendRes.errorOf : SendRes → Option ApiErr
  | .success _ _ => none
  | .failure e _ _ => some e

/-- Number of `error` events carrying `retrying = false`. -/
def countFinalErr (evs : List SendEvent) : Nat :=
  evs.countP (fun ev => match ev with
    | .errEvent _ false _ => true
    | _ => false)

/-- The body of the retry loop (api.ts lines 324-373), from a given attempt
number.  The fuel is the number of loop iterations still allowed
(`maxRetries + 1 - attempt`); the fuel-0 fallback is the post-loop
`throw lastError ∨ UNKNOWN` at line 376. -/
def sendGo (outs : Nat → AttemptOut) (maxRetries : Nat) : Nat → Nat → SendRes
  | _, 0 => .failure ⟨.UNKNOWN, false⟩ 0 []
  | attempt, fuel + 1 =>
    match outs attempt with
    | .ok => .success (attempt + 1) []
    | .fail e =>
      let pe := parseError e
      if pe.retryable = false then .failure pe (attempt + 1) [.errEvent pe false attempt]
      else if maxRetries ≤ attempt then .failure pe (attempt + 1) [.errEvent pe false attempt]
      else
        match sendGo outs maxRetries (attempt + 1) fuel with
        | .success n evs => .success n (.errEvent pe true attempt :: .thinkingEvent :: evs)
        | .failure pe2 n evs => .failure pe2 n (.errEvent pe true attempt :: .thinkingEvent :: evs)

/-- One logical send with retries (api.ts lines 324-377). -/
def sendWithRetry (outs : Nat → AttemptOut) (cfg : RetryConfig) : SendRes :=
  sendGo outs cfg.maxRetries 0 (cfg.maxRetries + 1)

/-- Classification of an HTTP 503, for any message: SERVER_ERROR, retryable. -/
theorem parse503 (m : String) :
    parseError (.apiStatus (some 503) m) = ⟨.SERVER_ERROR, true⟩ := by
  simp [parseError]

/-- Auxiliary for C8: if the first `k` attempts fail retryably and attempt
`k` fails non-retryably within the budget, the loop stops right there. -/
theorem sendGo_nonretryable (outs : Nat → AttemptOut) (mr : Nat) (e : RawError)
    (hnr : (parseError e).retryable = false) :
    ∀ (k attempt fuel : Nat), attempt + fuel = mr + 1 → attempt + k ≤ mr →
      (∀ j, j < k → ∃ e2, outs (attempt + j) = .fail e2 ∧ (parseError e2).retryable = true) →
      outs (attempt + k) = .fail e →
      ∃ evs, sendGo outs mr attempt fuel = .failure (parseError e) (attempt + k + 1) evs
        ∧ countFinalErr evs = 1 := by
  intro k
  induction k with
  | zero =>
    intro attempt fuel hfuel hle hfails he
    obtain ⟨f, rfl⟩ : ∃ f, fuel = f + 1 := ⟨fuel - 1, by omega⟩
    refine ⟨[.errEvent (parseError e) false attempt], ?_, by simp [countFinalErr]⟩
    simp only [Nat.add_zero] at he
    simp [sendGo, he, hnr]
  | succ k ih =>
    intro attempt fuel hfuel hle hfails he
    obtain ⟨f, rfl⟩ : ∃ f, fuel = f + 1 := ⟨fuel - 1, by omega⟩
    obtain ⟨e0, he0, hr0⟩ := hfails 0 (Nat.succ_pos k)
    simp only [Nat.add_zero] at he0
    have hlt : ¬ (mr ≤ attempt) := by omega
    obtain ⟨evs, heq, hcount⟩ := ih (attempt + 1) f (by omega) (by omega)
      (fun j hj => by
        obtain ⟨e2, hx, hy⟩ := hfails (j + 1) (by omega)
        exact ⟨e2, by rw [← hx]; ring_nf, hy⟩)
      (by rw [← he]; ring_nf)
    refine ⟨.errEvent (parseError e0) true attempt :: .thinkingEvent :: evs, ?_, ?_⟩
    · have : attempt + 1 + k + 1 = attempt + (k + 1) + 1 := by omega
      simp [sendGo, he0, hr0, hlt, heq, this]
    · simp [countFinalErr] at hcount ⊢
      exact hcount

/-- C8: an attempt whose classified error is non-retryable stops the
transport immediately, regardless of remaining attempt budget: the send
fails with that typed error after exactly the attempts issued so far,
and exactly one error event with `retrying = false` is emitted. -/
theorem nonretryable_stops_immediately (cfg : RetryConfig) (outs : Nat → AttemptOut)
    (k : Nat) (e : RawError) (hk : k ≤ cfg.maxRetries)
    (hfails : ∀ j, j < k → ∃ e2, outs j = .fail e2 ∧ (parseError e2).retryable = true)
    (he : outs k = .fail e) (hnr : (parseError e).retryable = false) :
    (sendWithRetry outs cfg).isSuccess = false
    ∧ (sendWithRetry outs cfg).errorOf = some (parseError e)
    ∧ (sendWithRetry outs cfg).attemptsUsed = k + 1
    ∧ countFinalErr (sendWithRetry outs cfg).events = 1 := by
  obtain ⟨evs, heq, hcount⟩ := sendGo_nonretryable outs cfg.maxRetries e hnr k 0
    (cfg.maxRetries + 1) (by omega) (by omega) (fun j hj => by simpa using hfails j hj)
    (by simpa using he)
  unfold sendWithRetry
  rw [heq]
  refine ⟨rfl, rfl, ?_, hcount⟩
  show 0 + k + 1 = k + 1
  omega

/-- Witness for C8: scenario A — HTTP 401 on the very first attempt. -/
theorem nonretryable_stops_immediately_witness :
    (sendWithRetry (fun _ => .fail (.apiStatus (some 401) "bad key")) defaultRetryConfig).isSuccess = false
    ∧ (sendWithRetry (fun _ => .fail (.apiStatus (some 401) "bad key")) defaultRetryConfig).errorOf =
        some ⟨.AUTH_ERROR, false⟩
    ∧ (sendWithRetry (fun _ => .fail (.apiStatus (some 401) "bad key")) defaultRetryConfig).attemptsUsed = 1
    ∧ countFinalErr (sendWithRetry (fun _ => .fail (.apiStatus (some 401) "bad key")) defaultRetryConfig).events = 1 := by
  have h := nonretryable_stops_immediately defaultRetryConfig
    (fun _ => .fail (.apiStatus (some 401) "bad key")) 0 (.apiStatus (some 401) "bad key")
    (by decide) (fun j hj => absurd hj (Nat.not_lt_zero j)) rfl (by decide)
  simpa using h

/-- The behaviour of a default-config send whose first three attempts fail
with HTTP 503: a **fourth** physical attempt is always issued, and the send
succeeds or fails according to that fourth attempt; no fifth attempt ever
happens (`attemptsUsed = 4` in every case). -/
theorem three_503_master (outs : Nat → AttemptOut)
    (h503 : ∀ j, j < 3 → ∃ m, outs j = .fail (.apiStatus (some 503) m)) :
    sendWithRetry outs defaultRetryConfig =
      (match outs 3 with
       | .ok => SendRes.success 4
          [.errEvent ⟨.SERVER_ERROR, true⟩ true 0, .thinkingEvent,
           .errEvent ⟨.SERVER_ERROR, true⟩ true 1, .thinkingEvent,
           .errEvent ⟨.SERVER_ERROR, true⟩ true 2, .thinkingEvent]
       | .fail e => SendRes.failure (parseError e) 4
          [.errEvent ⟨.SERVER_ERROR, true⟩ true 0, .thinkingEvent,
           .errEvent ⟨.SERVER_ERROR, true⟩ true 1, .thinkingEvent,
           .errEvent ⟨.SERVER_ERROR, true⟩ true 2, .thinkingEvent,
           .errEvent (parseError e) false 3]) := by
  obtain ⟨m0, h0⟩ := h503 0 (by omega)
  obtain ⟨m1, h1⟩ := h503 1 (by omega)
  obtain ⟨m2, h2⟩ := h503 2 (by omega)
  show sendGo outs 3 0 4 = _
  cases h3 : outs 3 with
  | ok =>
    simp [sendGo, h0, h1, h2, h3, parse503]
  | fail e =>
    by_cases hr : (parseError e).retryable = false
    · simp [sendGo, h0, h1, h2, h3, parse503, hr]
    · simp [sendGo, h0, h1, h2, h3, parse503, hr]

/-- C3 counterexample: with the default configuration (maxRetries = 3),
three consecutive HTTP 503 failures do **not** end the exchange — a fourth
physical request is issued, and when it succeeds the send succeeds after 4
attempts instead of failing with SERVER_ERROR after 3. -/
theorem three_503_then_success_cex :
    (sendWithRetry (fun n => if n < 3 then .fail (.apiStatus (some 503) "oops") else .ok)
        defaultRetryConfig).isSuccess = true
    ∧ (sendWithRetry (fun n => if n < 3 then .fail (.apiStatus (some 503) "oops") else .ok)
        defaultRetryConfig).attemptsUsed = 4 := by
  constructor <;> decide

/-- C3 (amended): `maxRetries = 3` caps the loop at 3 *retries*, i.e. four
physical attempts.  After three consecutive 503s a fourth attempt is always
issued: the send succeeds if it succeeds, fails with SERVER_ERROR if it
503s again, and in every case exactly 4 attempts are made (never a fifth). -/
theorem three_503_four_attempts (outs : Nat → AttemptOut)
    (h503 : ∀ j, j < 3 → ∃ m, outs j = .fail (.apiStatus (some 503) m)) :
    (sendWithRetry outs defaultRetryConfig).attemptsUsed = 4
    ∧ (outs 3 = .ok → (sendWithRetry outs defaultRetryConfig).isSuccess = true)
    ∧ (∀ m, outs 3 = .fail (.apiStatus (some 503) m) →
        (sendWithRetry outs defaultRetryConfig).errorOf = some ⟨.SERVER_ERROR, true⟩) := by
  have hm := three_503_master outs h503
  refine ⟨?_, ?_, ?_⟩
  · rw [hm]; cases outs 3 <;> rfl
  · intro h3; rw [hm, h3]; rfl
  · intro m h3; rw [hm, h3]; simp [parse503, SendRes.errorOf]

/-- Witness for C3's amended theorem: the concrete 503/503/503/success run. -/
theorem three_503_four_attempts_witness :
    (sendWithRetry (fun n => if n < 3 then .fail (.apiStatus (some 503) "oops") else .ok)
        defaultRetryConfig).attemptsUsed = 4
    ∧ (sendWithRetry (fun n => if n < 3 then .fail (.apiStatus (some 503) "oops") else .ok)
        defaultRetryConfig).isSuccess = true := by
  have h := three_503_four_attempts
    (fun n => if n < 3 then .fail (.apiStatus (some 503) "oops") else .ok)
    (fun j hj => ⟨"oops", by interval_cases j <;> rfl⟩)
  exact ⟨h.1, h.2.1 rfl⟩

/-! ## Message builder (`generateContextPrompt`, tools.ts lines 215-254;
initial message construction, api.ts lines 286-306) -/

/-- Response locales supported by the context (`Language`, tools.ts 212). -/
inductive Language where
  | en
  | zhCN
deriving DecidableEq

/-- `SkillInfo` (tools.ts lines 154-157). -/
structure SkillInfo where
  name : String
  description : String
deriving DecidableEq

/-- The `pageInfo` context field (tools.ts lines 218-222). -/
structure PageInfo where
  domain : String
  title : String
  url : Option String
deriving DecidableEq

/-- The optional context passed to `generateContextPrompt`; a missing
context object behaves exactly like one with every field absent, so both
are the all-`none` record. -/
structure Ctx where
  sharePageContent : Option Bool
  skills : Option (List SkillInfo)
  pageInfo : Option PageInfo
  language : Option Language

/-- The context record with everything absent. -/
def Ctx.empty : Ctx := ⟨none, none, none, none⟩

/-- JavaScript `Array.join(sep)`. -/
def joinSep (sep : String) : List String → String
  | [] => ""
  | [x] => x
  | x :: xs => x ++ sep ++ joinSep sep xs

/-- One `<skill>` XML block (tools.ts lines 187-192). -/
def skillXml (s : SkillInfo) : String :=
  "  <skill>\n    <name>" ++ s.name ++ "</name>\n    <description>" ++
    s.description ++ "</description>\n  </skill>"

/-- `buildSkillsContextPrompt` (tools.ts lines 182-209): empty when there
are no skills, otherwise the full catalog section. -/
def buildSkillsContextPrompt : Option (List SkillInfo) → String
  | none => ""
  | some [] => ""
  | some (s :: rest) =>
    "\n\n## 可用 Skills\n以下 Skills 已安装，当用户的任务匹配某个 Skill 的描述时，使用 activate_skill 工具激活它：\n\n<available_skills>\n"
      ++ joinSep "\n" ((s :: rest).map skillXml)
      ++ "\n</available_skills>\n\n### 工具优先级\n当需要获取页面内容时：\n1. **优先检查** Skills 列表，如果某个 Skill 的描述表明它专门处理当前网站/页面类型，先激活该 Skill\n2. **否则** 使用通用的 extract_page_content 工具\n\n激活 Skill 后，你将获得详细的指令来完成任务。"

/-- The language hint line (tools.ts lines 228-231). -/
def langLine (l : Language) : String :=
  "- Always respond in " ++ (match l with | .zhCN => "简体中文" | .en => "English")

/-- The page-sharing hint with optional page metadata (tools.ts 233-241). -/
def shareHint (pi : Option PageInfo) : String :=
  let h := "- 用户已勾选\"分享当前页面内容\"，当用户询问关于当前页面的问题时，你需要先获取页面内容"
  match pi with
  | none => h
  | some p =>
    h ++ "\n- 当前页面：" ++ p.title ++ "（" ++ p.domain ++ "）" ++
      (match p.url with | some u => "\n- 页面 URL：" ++ u | none => "")

/-- The notice emitted when page sharing is off or absent (tools.ts 243). -/
def noShareHint : String :=
  "- 用户未勾选\"分享当前页面内容\"，extract_page_content 工具当前不可用"

/-- The fixed closing section of every context prompt (tools.ts 251-253). -/
def importantFooter : String :=
  "\n\n## 重要提示\n- 不要假设页面内容，必须通过工具获取真实内容\n- 工具调用后会返回结果，你需要基于结果进行回答"

/-- `generateContextPrompt` (tools.ts lines 215-254). -/
def generateContextPrompt (ctx : Ctx) : String :=
  let hints : List String :=
    (match ctx.language with
     | some l => [langLine l]
     | none => [])
    ++ [if ctx.sharePageContent = some true then shareHint ctx.pageInfo else noShareHint]
  "## 当前上下文\n" ++ joinSep "\n" hints ++ buildSkillsContextPrompt ctx.skills
    ++ importantFooter

/-- The base system instructions (api.ts lines 286-292). -/
def basePrompt : String :=
  "You are a helpful AI assistant. Always respond using Markdown format for better readability. Use:\n- Headers (##, ###) for sections\n- **bold** and *italic* for emphasis\n- `code` for inline code and ``` for code blocks with language specification\n- Lists (- or 1.) for enumerations\n- > for quotes\n- Tables when presenting structured data"

/-- Wire-level message (`ApiMessage`, api.ts lines 143-153).  Assistant
tool_calls reuse `TCEntry` (id, name, raw argument string); `[]` means the
field is absent. -/
inductive ApiMsg where
  | system (content : String)
  | user (content : String)
  | assistant (content : Option String) (tool_calls : List TCEntry)
  | tool (content : String) (tool_call_id : String) (name : String)
deriving DecidableEq

/-- Stored chat message (`ChatMessage`, storage layer): its `role` is
declared `'user' | 'assistant' | 'system'`. -/
inductive ChatRole where
  | user
  | assistant
  | system
deriving DecidableEq

structure ChatMsg where
  role : ChatRole
  content : String
  quote : Option String

/-- The quote wrapper applied to each prior turn (api.ts lines 300-303):
`m.quote ? \x60[Quote: "..."]\n\n...\x60 : m.content`. -/
def quoteContent (m : ChatMsg) : String :=
  match m.quote with
  | some q => if q ≠ "" then "[Quote: \"" ++ q ++ "\"]\n\n" ++ m.content else m.content
  | none => m.content

/-- Mapping a stored message onto the wire (api.ts lines 300-303); the
`as 'user' | 'assistant'` cast is type-level only, the runtime role is
kept. -/
def toApiMsg (m : ChatMsg) : ApiMsg :=
  match m.role with
  | .user => .user (quoteContent m)
  | .assistant => .assistant (some (quoteContent m)) []
  | .system => .system (quoteContent m)

/-- Initial message construction of `streamChat` (api.ts lines 294-304). -/
def buildApiMessages (ctx : Ctx) (msgs : List ChatMsg) : List ApiMsg :=
  .system (basePrompt ++ "\n\n" ++ generateContextPrompt ctx) :: msgs.map toApiMsg

def isSystemMsg : ApiMsg → Bool
  | .system _ => true
  | _ => false

/-- Modelled from the spec wording of C9 for comparison: the same rendering
as `generateContextPrompt`, except that an omitted (or false) page-sharing
flag contributes *no text at all* — no hint line is pushed for it. -/
def specContextPrompt (ctx : Ctx) : String :=
  let hints : List String :=
    (match ctx.language with
     | some l => [langLine l]
     | none => [])
    ++ (if ctx.sharePageContent = some true then [shareHint ctx.pageInfo] else [])
  "## 当前上下文\n" ++ joinSep "\n" hints ++ buildSkillsContextPrompt ctx.skills
    ++ importantFooter

/-- C9 counterexample: with every optional context flag absent the system
prompt still contains flag-specific text — the fixed "page sharing is off,
extract_page_content unavailable" notice — so the code's rendering differs
from the spec-modelled rendering in which an omitted flag contributes no
text at all. -/
theorem omitted_flag_still_renders_notice :
    generateContextPrompt Ctx.empty ≠ specContextPrompt Ctx.empty := by
  decide

/-- The per-flag language section: absent → no text. -/
def langSec : Option Language → String
  | none => ""
  | some l => langLine l ++ "\n"

/-- The page-sharing section as the code renders it: the positive hint when
the flag is `some true`, the fixed disabled notice otherwise. -/
def shareSec (share : Option Bool) (pi : Option PageInfo) : String :=
  if share = some true then shareHint pi else noShareHint

/-- C9 (amended): message construction is total and pure; the built sequence
begins with exactly one system message whose text is the base instructions
plus the context rendering; that rendering decomposes into deterministic
per-flag sections where an omitted language / skills flag contributes no
text and an absent pageInfo adds nothing to the share section — but an
omitted (or false) `sharePageContent` contributes the fixed disabled notice
rather than no text. -/
theorem system_prompt_construction (ctx : Ctx) (msgs : List ChatMsg)
    (hroles : ∀ m ∈ msgs, m.role ≠ .system) :
    (buildApiMessages ctx msgs).head? =
      some (.system (basePrompt ++ "\n\n" ++ generateContextPrompt ctx))
    ∧ (buildApiMessages ctx msgs).countP (fun m => isSystemMsg m) = 1
    ∧ generateContextPrompt ctx =
        "## 当前上下文\n" ++ langSec ctx.language ++ shareSec ctx.sharePageContent ctx.pageInfo
          ++ buildSkillsContextPrompt ctx.skills ++ importantFooter
    ∧ langSec none = ""
    ∧ buildSkillsContextPrompt none = ""
    ∧ buildSkillsContextPrompt (some []) = ""
    ∧ (∀ pi, shareSec none pi = noShareHint ∧ shareSec (some false) pi = noShareHint) := by
  refine ⟨rfl, ?_, ?_, rfl, rfl, rfl, fun pi => ⟨rfl, rfl⟩⟩
  · unfold buildApiMessages
    rw [List.countP_cons_of_pos _ _ (by rfl)]
    have hz : (msgs.map toApiMsg).countP (fun m => isSystemMsg m) = 0 := by
      rw [List.countP_eq_zero]
      intro a ha
      obtain ⟨m, hm, rfl⟩ := List.mem_map.mp ha
      cases hr : m.role with
      | user => simp [toApiMsg, hr, isSystemMsg]
      | assistant => simp [toApiMsg, hr, isSystemMsg]
      | system => exact absurd hr (hroles m hm)
    rw [hz]
  · cases hl : ctx.language with
    | none =>
      simp [generateContextPrompt, langSec, shareSec, hl, joinSep,
        String.append_assoc, String.append_empty, String.empty_append]
    | some l =>
      simp [generateContextPrompt, langSec, shareSec, hl, joinSep,
        String.append_assoc, String.append_empty, String.empty_append]

/-- Witness for C9's amended theorem, with every flag supplied. -/
theorem system_prompt_construction_witness :
    (buildApiMessages ⟨some true, some [⟨"sk", "desc"⟩], some ⟨"example.com", "Title", some "https://example.com/p"⟩, some .zhCN⟩ []).countP (fun m => isSystemMsg m) = 1
    ∧ generateContextPrompt ⟨some true, some [⟨"sk", "desc"⟩], some ⟨"example.com", "Title", some "https://example.com/p"⟩, some .zhCN⟩ =
        "## 当前上下文\n" ++ langSec (some .zhCN)
          ++ shareSec (some true) (some ⟨"example.com", "Title", some "https://example.com/p"⟩)
          ++ buildSkillsContextPrompt (some [⟨"sk", "desc"⟩]) ++ importantFooter := by
  have h := system_prompt_construction
    ⟨some true, some [⟨"sk", "desc"⟩], some ⟨"example.com", "Title", some "https://example.com/p"⟩, some .zhCN⟩
    [] (fun m hm => absurd hm (List.not_mem_nil m))
  exact ⟨h.2.1, h.2.2.1⟩

/-! ## ReAct loop controller: tool phase and iteration (api.ts lines 312-620)

The tool-execution phase of one `streamChat` iteration is embedded as a
pure function of the aggregated tool calls.  `JSON.parse` success on an
argument string is abstracted as an oracle `parsedOk : String → Bool`, and
the external tool executor as `exec : TCEntry → ToolResultV` (the executor
is modelled as configured, matching the `toolExecutor` guard at line 481;
its result is a function of the call being dispatched). -/

/-- `maxToolCallRetries` (api.ts line 315). -/
def maxToolCallRetries : Nat := 3

/-- `ToolResult` (tools.ts lines 32-37). -/
structure ToolResultV where
  tool_call_id : String
  name : String
  result : String
  success : Bool
deriving DecidableEq

inductive PhaseOutcome where
  | loop
  | fatal (code : ErrCode)
  | finished
deriving DecidableEq

/-- Result of the post-stream phase of one iteration: the context ledger,
the tool retry counter, the calls actually dispatched to the executor
(in order), and how the iteration ended. -/
structure PhaseOut where
  ledger : List ApiMsg
  retryCount : Nat
  executed : List TCEntry
  outcome : PhaseOutcome
deriving DecidableEq

/-- The parse-error pre-check (api.ts lines 484-496): some call has a truthy
argument string that fails `JSON.parse`. -/
def hasParseErr (parsedOk : String → Bool) (calls : List TCEntry) : Bool :=
  calls.any (fun tc => tc.arguments != "" && !(parsedOk tc.arguments))

/-- Sequential tool dispatch (api.ts lines 543-598): execute calls in order,
appending a tool-result message per success; stop at the first failure
(which produces no tool message).  Returns the tool messages, the dispatched
calls, and whether a failure occurred. -/
def runCalls (exec : TCEntry → ToolResultV) : List TCEntry → List ApiMsg × List TCEntry × Bool
  | [] => ([], [], false)
  | tc :: rest =>
    let r := exec tc
    if r.success then
      let (ms, ex, f) := runCalls exec rest
      (.tool r.result tc.id tc.name :: ms, tc :: ex, f)
    else ([], [tc], true)

/-- The post-stream phase of one iteration (api.ts lines 481-616): no tool
calls ⇒ the loop ends; a parse error ⇒ the assistant turn is never added
and the iteration retries or turns fatal; otherwise the speculative
assistant message is appended, tools run sequentially, and an execution
failure pops the **last** ledger entry (`currentMessages.pop()`, line 603)
before retrying. -/
def toolPhase (parsedOk : String → Bool) (exec : TCEntry → ToolResultV)
    (ledger : List ApiMsg) (fullContent : String) (calls : List TCEntry) (rc : Nat) :
    PhaseOut :=
  if calls = [] then ⟨ledger, rc, [], .finished⟩
  else if hasParseErr parsedOk calls then
    if maxToolCallRetries ≤ rc + 1 then ⟨ledger, rc + 1, [], .fatal .TOOL_PARSE_ERROR⟩
    else ⟨ledger, rc + 1, [], .loop⟩
  else
    let asst : ApiMsg := .assistant (if fullContent = "" then none else some fullContent) calls
    let ledger1 := ledger ++ [asst]
    match runCalls exec calls with
    | (toolMsgs, executed, failed) =>
      if failed then
        if maxToolCallRetries ≤ rc + 1 then
          ⟨ledger1 ++ toolMsgs, rc + 1, executed, .fatal .TOOL_EXECUTION_ERROR⟩
        else ⟨(ledger1 ++ toolMsgs).dropLast, rc + 1, executed, .loop⟩
      else ⟨ledger1 ++ toolMsgs, rc, executed, .loop⟩

inductive LoopFinal where
  | done
  | fatalErr (code : ErrCode)
deriving DecidableEq

structure LoopOut where
  ledger : List ApiMsg
  executed : List TCEntry
  iterationsUsed : Nat
  final : LoopFinal
deriving DecidableEq

/-- The `while (iteration < maxIterations)` loop (api.ts lines 317-617) with
transport always succeeding; the oracle `turns` gives the streamed content
and aggregated tool calls of each model turn.  Fuel is the number of
iterations still allowed. -/
def loopGo (parsedOk : String → Bool) (exec : TCEntry → ToolResultV)
    (turns : Nat → String × List TCEntry) :
    Nat → Nat → List ApiMsg → Nat → List TCEntry → LoopOut
  | 0, it, L, _, ex => ⟨L, ex, it, .done⟩
  | fuel + 1, it, L, rc, ex =>
    let ph := toolPhase parsedOk exec L (turns it).1 (turns it).2 rc
    match ph.outcome with
    | .finished => ⟨ph.ledger, ex ++ ph.executed, it + 1, .done⟩
    | .fatal k => ⟨ph.ledger, ex ++ ph.executed, it + 1, .fatalErr k⟩
    | .loop => loopGo parsedOk exec turns fuel (it + 1) ph.ledger ph.retryCount (ex ++ ph.executed)

/-- Run the whole multi-turn exchange after message construction. -/
def runLoop (parsedOk : String → Bool) (exec : TCEntry → ToolResultV)
    (turns : Nat → String × List TCEntry) (maxIterations : Nat) (L0 : List ApiMsg) : LoopOut :=
  loopGo parsedOk exec turns maxIterations 0 L0 0 []

/-- A trivially succeeding executor, used as the oracle where execution
results do not matter. -/
def okExec : TCEntry → ToolResultV := fun tc => ⟨tc.id, tc.name, "", true⟩

/-- The executor of the C2 evaluation: call id "1" succeeds, everything
else fails. -/
def firstOkExec : TCEntry → ToolResultV :=
  fun tc => if tc.id = "1" then ⟨tc.id, tc.name, "ok", true⟩ else ⟨tc.id, tc.name, "boom", false⟩

/-- C2 evaluated at its failing input: a turn with two tool calls where the
first succeeds and the second fails.  `currentMessages.pop()` removes the
first call's tool-result message instead of the speculative assistant
message, so the ledger after DiscardAndRetry still contains the assistant
message carrying the tool_calls (and is not the pre-turn ledger), contrary
to the claim and to the source's own comment "移除刚才添加的 assistant 消息". -/
theorem discard_pops_tool_result_not_assistant :
    (toolPhase (fun _ => true) firstOkExec [.system "S"] ""
        [⟨"1", "f", "\x7b\x7d"⟩, ⟨"2", "g", "\x7b\x7d"⟩] 0).ledger =
      [.system "S", .assistant none [⟨"1", "f", "\x7b\x7d"⟩, ⟨"2", "g", "\x7b\x7d"⟩]]
    ∧ (toolPhase (fun _ => true) firstOkExec [.system "S"] ""
        [⟨"1", "f", "\x7b\x7d"⟩, ⟨"2", "g", "\x7b\x7d"⟩] 0).ledger ≠ [.system "S"]
    ∧ (toolPhase (fun _ => true) firstOkExec [.system "S"] ""
        [⟨"1", "f", "\x7b\x7d"⟩, ⟨"2", "g", "\x7b\x7d"⟩] 0).outcome = .loop := by
  refine ⟨by decide, by decide, by decide⟩

/-- When some argument string fails parsing, the phase dispatches nothing
and leaves the ledger untouched, retrying below the budget and failing
fatally with TOOL_PARSE_ERROR at the budget. -/
theorem toolPhase_parse_bad (parsedOk : String → Bool) (exec : TCEntry → ToolResultV)
    (L : List ApiMsg) (fc : String) (calls : List TCEntry) (rc : Nat)
    (hhp : hasParseErr parsedOk calls = true) :
    toolPhase parsedOk exec L fc calls rc =
      if maxToolCallRetries ≤ rc + 1 then ⟨L, rc + 1, [], .fatal .TOOL_PARSE_ERROR⟩
      else ⟨L, rc + 1, [], .loop⟩ := by
  have hne : calls ≠ [] := by
    intro h
    rw [h] at hhp
    simp [hasParseErr] at hhp
  simp [toolPhase, hne, hhp]

/-- C4: a tool call whose arguments fail JSON parsing is never dispatched —
the phase executes nothing and the offending assistant turn is absent from
the ledger on retry; and when every model turn has such a call, with the
budget of 3 the exchange fails fatally with TOOL_PARSE_ERROR after exactly
3 discard cycles (within the default 5-iteration cap), the ledger equal to
the initial one and no tool ever executed. -/
theorem parse_error_never_executes (parsedOk : String → Bool) (exec : TCEntry → ToolResultV)
    (turns : Nat → String × List TCEntry) (L0 : List ApiMsg)
    (hbad : ∀ i, hasParseErr parsedOk (turns i).2 = true) :
    (∀ L fc calls rc, hasParseErr parsedOk calls = true →
        (toolPhase parsedOk exec L fc calls rc).executed = []
        ∧ (toolPhase parsedOk exec L fc calls rc).ledger = L)
    ∧ runLoop parsedOk exec turns 5 L0 = ⟨L0, [], 3, .fatalErr .TOOL_PARSE_ERROR⟩ := by
  constructor
  · intro L fc calls rc hhp
    rw [toolPhase_parse_bad parsedOk exec L fc calls rc hhp]
    by_cases h3 : maxToolCallRetries ≤ rc + 1 <;> simp [h3]
  · show loopGo parsedOk exec turns 5 0 L0 0 [] = _
    rw [loopGo, toolPhase_parse_bad parsedOk exec L0 (turns 0).1 (turns 0).2 0 (hbad 0)]
    norm_num [maxToolCallRetries]
    rw [loopGo, toolPhase_parse_bad parsedOk exec L0 (turns 1).1 (turns 1).2 1 (hbad 1)]
    norm_num [maxToolCallRetries]
    rw [loopGo, toolPhase_parse_bad parsedOk exec L0 (turns 2).1 (turns 2).2 2 (hbad 2)]
    norm_num [maxToolCallRetries]

/-- Witness for C4: a parse oracle rejecting everything, a single bad call
per turn. -/
theorem parse_error_never_executes_witness :
    (toolPhase (fun _ => false) okExec [] "" [⟨"1", "f", "x"⟩] 0).executed = []
    ∧ runLoop (fun _ => false) okExec (fun _ => ("", [⟨"1", "f", "x"⟩])) 5 [] =
        ⟨[], [], 3, .fatalErr .TOOL_PARSE_ERROR⟩ := by
  have h := parse_error_never_executes (fun _ => false) okExec
    (fun _ => ("", [⟨"1", "f", "x"⟩])) [] (fun i => rfl)
  exact ⟨(h.1 [] "" [⟨"1", "f", "x"⟩] 0 rfl).1, h.2⟩

/-! ## `fetchModels` (api.ts lines 176-193 and the earlier fetch-based
version, src/unnamed/part_006 lines 15-38)

Both versions wrap everything in try/catch and return `[]` on any failure.
The fetch-based version is modelled on an outcome oracle: an exception
(network failure or `response.json()` throwing on a malformed body), or a
response with its `ok` flag and the optional `data` array (`none` models a
JSON body without a usable `data` field, handled by `data.data || []`).
The SDK version is modelled on the optional id list returned by
`client.models.list()` (`none` = the SDK threw). -/

structure RespModel where
  id : String
  name : String
deriving DecidableEq

inductive ModelsOutcome where
  | exn
  | resp (ok : Bool) (dataField : Option (List RespModel))

structure ModelInfo where
  id : String
  name : String
deriving DecidableEq

/-- The fetch-based `fetchModels` (part_006 lines 15-38): non-ok responses
throw into the catch, malformed bodies throw or yield no `data`, successes
map each entry to `{id: m.id, name: m.name || m.id}`. -/
def fetchModels : ModelsOutcome → List ModelInfo
  | .exn => []
  | .resp false _ => []
  | .resp true body =>
    (body.getD []).map (fun m => ⟨m.id, if m.name ≠ "" then m.name else m.id⟩)

/-- The SDK-based `fetchModels` (api.ts lines 176-193): any SDK error is
caught to `[]`; a successful list maps each id to `{id, name: id}`. -/
def fetchModelsSdk : Option (List String) → List ModelInfo
  | none => []
  | some ids => ids.map (fun i => ⟨i, i⟩)

/-- C10: `fetchModels` never throws — every failure (network exception,
non-2xx response, malformed body) yields the empty list — and a success
yields exactly one ModelInfo per model id reported, in response order; the
same holds for the SDK-based variant. -/
theorem fetchModels_never_throws :
    fetchModels .exn = []
    ∧ (∀ body, fetchModels (.resp false body) = [])
    ∧ fetchModels (.resp true none) = []
    ∧ (∀ ms, (fetchModels (.resp true (some ms))).map (fun m => m.id) = ms.map (fun m => m.id)
        ∧ (fetchModels (.resp true (some ms))).length = ms.length)
    ∧ fetchModelsSdk none = []
    ∧ (∀ ids, (fetchModelsSdk (some ids)).map (fun m => m.id) = ids) := by
  refine ⟨rfl, fun body => ?_, rfl, fun ms => ⟨?_, ?_⟩, rfl, fun ids => ?_⟩
  · cases body <;> rfl
  · simp [fetchModels]
  · simp [fetchModels]
  · simp only [fetchModelsSdk, List.map_map]
    exact List.map_id ids

/-- Witness for C10 at concrete outcomes. -/
theorem fetchModels_never_throws_witness :
    fetchModels (.resp false (some [⟨"m1", ""⟩])) = []
    ∧ (fetchModels (.resp true (some [⟨"m1", ""⟩, ⟨"m2", "Model 2"⟩]))).map (fun m => m.id) =
        ["m1", "m2"]
    ∧ (fetchModelsSdk (some ["a", "b"])).map (fun m => m.id) = ["a", "b"] := by
  have h := fetchModels_never_throws
  exact ⟨h.2.1 (some [⟨"m1", ""⟩]), (h.2.2.2.1 [⟨"m1", ""⟩, ⟨"m2", "Model 2"⟩]).1,
    h.2.2.2.2.2 ["a", "b"]⟩

/-! ## Reconstruction of split argument strings (C1)

`isJsonClosed` tracks the previous character only to skip quotes preceded
by a backslash.  On backslash-free text the scan collapses to a two-field
machine (`sStep`), whose running minimum over all intermediate states is
what rules out an early zero brace count. -/

/-- The `isJsonClosed` scan step on backslash-free text: state is (brace
count, inside-string flag). -/
def sStep : Int × Bool → Char → Int × Bool
  | (b, q), c =>
    if c = '"' then (b, !q)
    else if q then (b, q)
    else if c = '\x7b' then (b + 1, q)
    else if c = '\x7d' then (b - 1, q)
    else (b, q)

def sScan (st : Int × Bool) (l : List Char) : Int × Bool := l.foldl sStep st

/-- Minimum brace count over every state the scan passes through (initial
and final included). -/
def scanMin : Int × Bool → List Char → Int
  | st, [] => st.1
  | st, c :: l => min st.1 (scanMin (sStep st c) l)

theorem sScan_nil (st : Int × Bool) : sScan st [] = st := rfl

theorem sScan_cons (st : Int × Bool) (c : Char) (l : List Char) :
    sScan st (c :: l) = sScan (sStep st c) l := rfl

theorem sScan_append (st : Int × Bool) (l1 l2 : List Char) :
    sScan st (l1 ++ l2) = sScan (sScan st l1) l2 := by
  simp [sScan]

theorem scanMin_le_fst (l : List Char) (st : Int × Bool) : scanMin st l ≤ st.1 := by
  cases l with
  | nil => exact le_refl _
  | cons c l => exact min_le_left _ _

theorem scanMin_append (l1 : List Char) :
    ∀ (st : Int × Bool) (l2 : List Char),
      scanMin st (l1 ++ l2) = min (scanMin st l1) (scanMin (sScan st l1) l2) := by
  induction l1 with
  | nil =>
    intro st l2
    simp [scanMin, sScan_nil]
    exact scanMin_le_fst l2 st
  | cons c l1 ih =>
    intro st l2
    show min st.1 (scanMin (sStep st c) (l1 ++ l2)) = _
    rw [ih (sStep st c) l2, sScan_cons]
    show _ = min (min st.1 (scanMin (sStep st c) l1)) _
    rw [min_assoc]

/-- On backslash-free input, starting with a previous character that is not
a backslash, the full scanner agrees with the two-field machine. -/
theorem jScan_eq_sScan (l : List Char) :
    ∀ (b : Int) (q : Bool) (p : Option Char), '\\' ∉ l → p ≠ some '\\' →
      (jScanFrom ⟨b, q, p⟩ l).brace = (sScan (b, q) l).1
      ∧ (jScanFrom ⟨b, q, p⟩ l).inStr = (sScan (b, q) l).2 := by
  induction l with
  | nil => intro b q p _ _; exact ⟨rfl, rfl⟩
  | cons c l ih =>
    intro b q p hmem hp
    have hc : c ≠ '\\' := fun h => hmem (h ▸ List.mem_cons_self c l)
    have hl : '\\' ∉ l := fun h => hmem (List.mem_cons_of_mem c h)
    have hnext : some c ≠ some '\\' := fun h => hc (Option.some_injective _ h)
    have e1 : jScanFrom ⟨b, q, p⟩ (c :: l) = jScanFrom (jStep ⟨b, q, p⟩ c) l := rfl
    have e2 : sScan (b, q) (c :: l) = sScan (sStep (b, q) c) l := rfl
    have hstep : jStep ⟨b, q, p⟩ c = ⟨(sStep (b, q) c).1, (sStep (b, q) c).2, some c⟩ := by
      by_cases hq : c = '"'
      · simp [jStep, sStep, hq, hp]
      · by_cases hin : q
        · simp [jStep, sStep, hq, hin]
        · by_cases hob : c = '\x7b'
          · simp [jStep, sStep, hq, hin, hob]
          · by_cases hcb : c = '\x7d'
            · simp [jStep, sStep, hq, hin, hob, hcb]
            · simp [jStep, sStep, hq, hin, hob, hcb]
    rw [e1, e2, hstep]
    exact ih (sStep (b, q) c).1 (sStep (b, q) c).2 (some c) hl hnext

/-- `IsStart p l`: `p` is an initial segment of `l`. -/
def IsStart {α : Type} (p l : List α) : Prop := ∃ t, p ++ t = l

theorem isStart_refl {α : Type} (l : List α) : IsStart l l := ⟨[], List.append_nil l⟩

theorem isStart_cons {α : Type} {p : List α} {c : α} {l : List α}
    (h : IsStart p (c :: l)) : p = [] ∨ ∃ p2, p = c :: p2 ∧ IsStart p2 l := by
  obtain ⟨t, ht⟩ := h
  cases p with
  | nil => exact Or.inl rfl
  | cons a p2 =>
    rw [List.cons_append] at ht
    injection ht with h1 h2
    exact Or.inr ⟨p2, by rw [h1], ⟨t, h2⟩⟩

theorem isStart_snoc {α : Type} {l : List α} {x : α} :
    ∀ {q : List α}, IsStart q (l ++ [x]) → q = l ++ [x] ∨ IsStart q l := by
  induction l with
  | nil =>
    intro q h
    obtain ⟨t, ht⟩ := h
    cases q with
    | nil => exact Or.inr (isStart_refl [])
    | cons a q2 =>
      rw [List.cons_append] at ht
      injection ht with h1 h2
      have : q2 = [] ∧ t = [] := List.append_eq_nil.mp h2
      exact Or.inl (by rw [h1, this.1]; rfl)
  | cons c l ih =>
    intro q h
    obtain ⟨t, ht⟩ := h
    cases q with
    | nil => exact Or.inr ⟨c :: l, rfl⟩
    | cons a q2 =>
      rw [List.cons_append, List.cons_append] at ht
      injection ht with h1 h2
      rcases ih ⟨t, h2⟩ with hfull | hstart
      · exact Or.inl (by rw [h1, hfull]; rfl)
      · exact Or.inr (by
          obtain ⟨t2, ht2⟩ := hstart
          exact ⟨t2, by rw [h1, List.cons_append, ht2]⟩)

/-- Along any initial segment the brace count stays at or above the
running minimum of the whole list. -/
theorem sScan_fst_ge_scanMin (st : Int × Bool) {l q : List Char} (h : IsStart q l) :
    scanMin st l ≤ (sScan st q).1 := by
  obtain ⟨t, rfl⟩ := h
  rw [scanMin_append]
  exact le_trans (min_le_right _ _) (scanMin_le_fst t (sScan st q))

/-! ### A model of complete JSON argument strings

Tool-call argument strings are serialized JSON objects.  The grammar is
modelled by `Jv` (values), `JvL` (array element lists) and `JvM` (object
member lists); `serV` renders standard compact JSON text, escaping `"` and
`\\` inside string literals. -/

mutual
inductive Jv where
  | jnull : Jv
  | jbool : Bool → Jv
  | jnum : Nat → Jv
  | jstr : String → Jv
  | jarr : JvL → Jv
  | jobj : JvM → Jv
inductive JvL where
  | nil : JvL
  | cons : Jv → JvL → JvL
inductive JvM where
  | nil : JvM
  | cons : String → Jv → JvM → JvM
end

def digitChar (n : Nat) : Char := Char.ofNat (48 + n)

def digitsGo : Nat → Nat → List Char
  | 0, _ => []
  | fuel + 1, n => if n < 10 then [digitChar n] else digitsGo fuel (n / 10) ++ [digitChar (n % 10)]

/-- Decimal rendering of a natural number. -/
def digitsOf (n : Nat) : List Char := digitsGo (n + 1) n

/-- JSON string-literal escaping of one character. -/
def escChar (c : Char) : List Char :=
  if c = '"' then ['\\', '"'] else if c = '\\' then ['\\', '\\'] else [c]

/-- JSON string-literal body of a Lean string. -/
def escString (s : String) : List Char := (s.data.map escChar).flatten

mutual
def serV : Jv → List Char
  | .jnull => ['n', 'u', 'l', 'l']
  | .jbool true => ['t', 'r', 'u', 'e']
  | .jbool false => ['f', 'a', 'l', 's', 'e']
  | .jnum n => digitsOf n
  | .jstr s => '"' :: escString s ++ ['"']
  | .jarr items => '[' :: serItems items ++ [']']
  | .jobj ms => '\x7b' :: serMembers ms ++ ['\x7d']
def serItems : JvL → List Char
  | .nil => []
  | .cons v tail => serV v ++ serItemsRest tail
def serItemsRest : JvL → List Char
  | .nil => []
  | .cons v tail => ',' :: serV v ++ serItemsRest tail
def serMembers : JvM → List Char
  | .nil => []
  | .cons k v tail => ('"' :: escString k ++ '"' :: ':' :: serV v) ++ serMembersRest tail
def serMembersRest : JvM → List Char
  | .nil => []
  | .cons k v tail => ',' :: (('"' :: escString k ++ '"' :: ':' :: serV v) ++ serMembersRest tail)
end

/-- One serialized object member `"key":value`. -/
def serMem (k : String) (v : Jv) : List Char :=
  '"' :: escString k ++ '"' :: ':' :: serV v

/-- A string is escape-free: no `"` and no `\\` among its characters. -/
def safeStr (s : String) : Bool := s.data.all (fun c => !(c == '"') && !(c == '\\'))

mutual
def safeV : Jv → Bool
  | .jnull => true
  | .jbool _ => true
  | .jnum _ => true
  | .jstr s => safeStr s
  | .jarr items => safeL items
  | .jobj ms => safeM ms
def safeL : JvL → Bool
  | .nil => true
  | .cons v tail => safeV v && safeL tail
def safeM : JvM → Bool
  | .nil => true
  | .cons k v tail => safeStr k && safeV v && safeM tail
end

theorem safeStr_chars {s : String} (h : safeStr s = true) :
    ∀ c ∈ s.data, c ≠ '"' ∧ c ≠ '\\' := by
  intro c hc
  have := (List.all_eq_true.mp h) c hc
  simp only [Bool.and_eq_true, Bool.not_eq_true'] at this
  exact ⟨fun he => by simp [he] at this, fun he => by simp [he] at this⟩

theorem escFlatten_of_plain :
    ∀ l : List Char, (∀ c ∈ l, c ≠ '"' ∧ c ≠ '\\') → (l.map escChar).flatten = l := by
  intro l h
  induction l with
  | nil => rfl
  | cons c l ih =>
    have hc := h c (List.mem_cons_self c l)
    simp only [List.map_cons, List.flatten_cons]
    rw [ih (fun d hd => h d (List.mem_cons_of_mem c hd))]
    simp [escChar, hc.1, hc.2]

theorem escString_safe {s : String} (h : safeStr s = true) : escString s = s.data :=
  escFlatten_of_plain s.data (safeStr_chars h)

/-- Inside a string literal the scan ignores everything but quotes. -/
theorem inString_run :
    ∀ l : List Char, (∀ c ∈ l, c ≠ '"') → ∀ b : Int,
      sScan (b, true) l = (b, true) ∧ scanMin (b, true) l = b := by
  intro l
  induction l with
  | nil => intro _ b; exact ⟨rfl, rfl⟩
  | cons c l ih =>
    intro h b
    have hc : c ≠ '"' := h c (List.mem_cons_self c l)
    have hstep : sStep (b, true) c = (b, true) := by simp [sStep, hc]
    have hrec := ih (fun d hd => h d (List.mem_cons_of_mem c hd)) b
    constructor
    · rw [sScan_cons, hstep, hrec.1]
    · show min b (scanMin (sStep (b, true) c) l) = b
      rw [hstep, hrec.2, min_self]

/-- Characters that are neither quotes nor braces leave the scan state
unchanged. -/
theorem neutral_run :
    ∀ l : List Char, (∀ c ∈ l, c ≠ '"' ∧ c ≠ '\x7b' ∧ c ≠ '\x7d') → ∀ b : Int,
      sScan (b, false) l = (b, false) ∧ scanMin (b, false) l = b := by
  intro l
  induction l with
  | nil => intro _ b; exact ⟨rfl, rfl⟩
  | cons c l ih =>
    intro h b
    have hc := h c (List.mem_cons_self c l)
    have hstep : sStep (b, false) c = (b, false) := by
      simp [sStep, hc.1, hc.2.1, hc.2.2]
    have hrec := ih (fun d hd => h d (List.mem_cons_of_mem c hd)) b
    constructor
    · rw [sScan_cons, hstep, hrec.1]
    · show min b (scanMin (sStep (b, false) c) l) = b
      rw [hstep, hrec.2, min_self]

/-- A serialized fragment is well-behaved for the scan: from any brace
count outside a string it returns to the same state, never dips below the
starting count, and contains no backslash. -/
def serOk (l : List Char) : Prop :=
  (∀ b : Int, sScan (b, false) l = (b, false) ∧ scanMin (b, false) l = b) ∧ '\\' ∉ l

theorem serOk_nil : serOk [] := ⟨fun b => ⟨rfl, rfl⟩, List.not_mem_nil '\\'⟩

theorem serOk_append {l1 l2 : List Char} (h1 : serOk l1) (h2 : serOk l2) :
    serOk (l1 ++ l2) := by
  refine ⟨fun b => ?_, fun hm => ?_⟩
  · obtain ⟨e1, m1⟩ := h1.1 b
    obtain ⟨e2, m2⟩ := h2.1 b
    constructor
    · rw [sScan_append, e1, e2]
    · rw [scanMin_append, e1, m1, m2, min_self]
  · rcases List.mem_append.mp hm with hm | hm
    · exact h1.2 hm
    · exact h2.2 hm

theorem serOk_neutral (l : List Char)
    (h : ∀ c ∈ l, c ≠ '"' ∧ c ≠ '\x7b' ∧ c ≠ '\x7d' ∧ c ≠ '\\') : serOk l := by
  refine ⟨neutral_run l (fun c hc => ⟨(h c hc).1, (h c hc).2.1, (h c hc).2.2.1⟩), fun hm => ?_⟩
  exact (h '\\' hm).2.2.2 rfl

/-- A JSON string literal over an escape-free string is scan-neutral. -/
theorem serOk_stringLit (s : String) (hs : safeStr s = true) :
    serOk ('"' :: escString s ++ ['"']) := by
  rw [escString_safe hs]
  have hchars := safeStr_chars hs
  refine ⟨fun b => ?_, fun hm => ?_⟩
  · have hq : sStep (b, false) '"' = (b, true) := by simp [sStep]
    have hinner := inString_run s.data (fun c hc => (hchars c hc).1) b
    have hclose : sStep (b, true) '"' = (b, false) := by simp [sStep]
    constructor
    · show sScan (sStep (b, false) '"') (s.data ++ ['"']) = (b, false)
      rw [hq, sScan_append, hinner.1]
      show sScan (sStep (b, true) '"') [] = (b, false)
      rw [hclose]; rfl
    · show min b (scanMin (sStep (b, false) '"') (s.data ++ ['"'])) = b
      rw [hq, scanMin_append, hinner.1, hinner.2]
      show min b (min b (min b (scanMin (sStep (b, true) '"') []))) = b
      rw [hclose]
      show min b (min b (min b b)) = b
      simp
  · rcases List.mem_cons.mp hm with hm | hm
    · exact absurd hm.symm (by decide)
    · rcases List.mem_append.mp hm with hm | hm
      · exact ((hchars '\\' hm).2) rfl
      · simp at hm

theorem digitChar_plain (d : Nat) (hd : d < 10) :
    digitChar d ≠ '"' ∧ digitChar d ≠ '\x7b' ∧ digitChar d ≠ '\x7d' ∧ digitChar d ≠ '\\' := by
  interval_cases d <;> exact ⟨by decide, by decide, by decide, by decide⟩

theorem digitsGo_chars : ∀ (fuel n : Nat), ∀ c ∈ digitsGo fuel n, ∃ d, d < 10 ∧ c = digitChar d := by
  intro fuel
  induction fuel with
  | zero => intro n c hc; simp [digitsGo] at hc
  | succ fuel ih =>
    intro n c hc
    by_cases hn : n < 10
    · simp [digitsGo, hn] at hc
      exact ⟨n, hn, hc⟩
    · simp only [digitsGo, hn, if_false] at hc
      rcases List.mem_append.mp hc with hc | hc
      · exact ih (n / 10) c hc
      · simp at hc
        exact ⟨n % 10, Nat.mod_lt n (by omega), hc⟩

theorem serOk_digits (n : Nat) : serOk (digitsOf n) := by
  apply serOk_neutral
  intro c hc
  obtain ⟨d, hd, rfl⟩ := digitsGo_chars (n + 1) n c hc
  exact digitChar_plain d hd

/-- Wrapping a well-behaved fragment in braces gives a well-behaved
fragment: the count rises to `b + 1` immediately after the opening brace
and returns to `b` only at the closing one. -/
theorem serOk_obj {inner : List Char} (h : serOk inner) :
    serOk ('\x7b' :: inner ++ ['\x7d']) := by
  refine ⟨fun b => ?_, fun hm => ?_⟩
  · have hopen : sStep (b, false) '\x7b' = (b + 1, false) := by simp [sStep]
    have hclose : sStep (b + 1, false) '\x7d' = (b, false) := by
      simp [sStep]
    obtain ⟨e1, m1⟩ := h.1 (b + 1)
    constructor
    · show sScan (sStep (b, false) '\x7b') (inner ++ ['\x7d']) = (b, false)
      rw [hopen, sScan_append, e1]
      show sScan (sStep (b + 1, false) '\x7d') [] = (b, false)
      rw [hclose]; rfl
    · show min b (scanMin (sStep (b, false) '\x7b') (inner ++ ['\x7d'])) = b
      rw [hopen, scanMin_append, e1, m1]
      show min b (min (b + 1) (min (b + 1) (scanMin (sStep (b + 1, false) '\x7d') []))) = b
      rw [hclose]
      show min b (min (b + 1) (min (b + 1) b)) = b
      omega
  · rcases List.mem_cons.mp hm with hm | hm
    · exact absurd hm.symm (by decide)
    · rcases List.mem_append.mp hm with hm | hm
      · exact h.2 hm
      · simp at hm

theorem serOk_single {c : Char}
    (hc : c ≠ '"' ∧ c ≠ '\x7b' ∧ c ≠ '\x7d' ∧ c ≠ '\\') : serOk [c] :=
  serOk_neutral [c] (by intro d hd; simp at hd; rw [hd]; exact hc)

mutual
theorem serV_ok : ∀ (v : Jv), safeV v = true → serOk (serV v)
  | .jnull, _ => serOk_neutral _ (by decide)
  | .jbool true, _ => serOk_neutral _ (by decide)
  | .jbool false, _ => serOk_neutral _ (by decide)
  | .jnum n, _ => serOk_digits n
  | .jstr s, h => serOk_stringLit s h
  | .jarr items, h => by
    show serOk ('[' :: serItems items ++ [']'])
    have : '[' :: serItems items ++ [']'] = ['['] ++ (serItems items ++ [']']) := by simp
    rw [this]
    exact serOk_append (serOk_single (by decide))
      (serOk_append (serItems_ok items h) (serOk_single (by decide)))
  | .jobj ms, h => serOk_obj (serMembers_ok ms h)
theorem serItems_ok : ∀ (l : JvL), safeL l = true → serOk (serItems l)
  | .nil, _ => serOk_nil
  | .cons v tail, h => by
    have hv : safeV v = true := ((Bool.and_eq_true _ _).mp h).1
    have ht : safeL tail = true := ((Bool.and_eq_true _ _).mp h).2
    exact serOk_append (serV_ok v hv) (serItemsRest_ok tail ht)
theorem serItemsRest_ok : ∀ (l : JvL), safeL l = true → serOk (serItemsRest l)
  | .nil, _ => serOk_nil
  | .cons v tail, h => by
    have hv : safeV v = true := ((Bool.and_eq_true _ _).mp h).1
    have ht : safeL tail = true := ((Bool.and_eq_true _ _).mp h).2
    show serOk (',' :: serV v ++ serItemsRest tail)
    have : ',' :: serV v ++ serItemsRest tail = [','] ++ (serV v ++ serItemsRest tail) := by simp
    rw [this]
    exact serOk_append (serOk_single (by decide))
      (serOk_append (serV_ok v hv) (serItemsRest_ok tail ht))
theorem serMembers_ok : ∀ (m : JvM), safeM m = true → serOk (serMembers m)
  | .nil, _ => serOk_nil
  | .cons k v tail, h => by
    have h1 : safeStr k = true := by
      have := ((Bool.and_eq_true _ _).mp h).1
      exact ((Bool.and_eq_true _ _).mp this).1
    have h2 : safeV v = true := by
      have := ((Bool.and_eq_true _ _).mp h).1
      exact ((Bool.and_eq_true _ _).mp this).2
    have h3 : safeM tail = true := ((Bool.and_eq_true _ _).mp h).2
    show serOk (('"' :: escString k ++ '"' :: ':' :: serV v) ++ serMembersRest tail)
    have hmem : serOk ('"' :: escString k ++ '"' :: ':' :: serV v) := by
      have e : '"' :: escString k ++ '"' :: ':' :: serV v =
          ('"' :: escString k ++ ['"']) ++ ([':'] ++ serV v) := by simp
      rw [e]
      exact serOk_append (serOk_stringLit k h1)
        (serOk_append (serOk_single (by decide)) (serV_ok v h2))
    exact serOk_append hmem (serMembersRest_ok tail h3)
theorem serMembersRest_ok : ∀ (m : JvM), safeM m = true → serOk (serMembersRest m)
  | .nil, _ => serOk_nil
  | .cons k v tail, h => by
    have h1 : safeStr k = true := by
      have := ((Bool.and_eq_true _ _).mp h).1
      exact ((Bool.and_eq_true _ _).mp this).1
    have h2 : safeV v = true := by
      have := ((Bool.and_eq_true _ _).mp h).1
      exact ((Bool.and_eq_true _ _).mp this).2
    have h3 : safeM tail = true := ((Bool.and_eq_true _ _).mp h).2
    show serOk (',' :: (('"' :: escString k ++ '"' :: ':' :: serV v) ++ serMembersRest tail))
    have : ',' :: (('"' :: escString k ++ '"' :: ':' :: serV v) ++ serMembersRest tail) =
        [','] ++ (('"' :: escString k ++ '"' :: ':' :: serV v) ++ serMembersRest tail) := by simp
    rw [this]
    have hmem : serOk ('"' :: escString k ++ '"' :: ':' :: serV v) := by
      have e : '"' :: escString k ++ '"' :: ':' :: serV v =
          ('"' :: escString k ++ ['"']) ++ ([':'] ++ serV v) := by simp
      rw [e]
      exact serOk_append (serOk_stringLit k h1)
        (serOk_append (serOk_single (by decide)) (serV_ok v h2))
    exact serOk_append (serOk_single (by decide))
      (serOk_append hmem (serMembersRest_ok tail h3))
end

theorem mk_data (s : String) : String.mk s.data = s := by
  cases s
  rfl

theorem strExt {a b : String} (h : a.data = b.data) : a = b := by
  cases a
  cases b
  exact congrArg String.mk h

theorem isStart_mem {α : Type} {p l : List α} {c : α} (h : IsStart p l) (hc : c ∈ p) :
    c ∈ l := by
  obtain ⟨t, rfl⟩ := h
  exact List.mem_append_left t hc

/-- Every proper initial segment of a serialized escape-free JSON object is
rejected by `isJsonClosed`: before the final closing brace the net brace
count outside strings stays at least 1 (and the empty buffer is never
closed), so the guard only fires once the whole object has arrived. -/
theorem properStart_not_closed (ms : JvM) (hs : safeM ms = true) :
    ∀ (p : List Char), IsStart p (serV (.jobj ms)) → p ≠ serV (.jobj ms) →
      isJsonClosed (String.mk p) = false := by
  intro p hp hne
  have hser : serV (.jobj ms) = '\x7b' :: (serMembers ms ++ ['\x7d']) := rfl
  rw [hser] at hp hne
  rcases isStart_cons hp with rfl | ⟨p2, rfl, hp2⟩
  · rfl
  · rcases isStart_snoc hp2 with hfull | hstart
    · exact absurd (by rw [hfull]) hne
    · have hOk := serMembers_ok ms hs
      have hnb : '\\' ∉ ('\x7b' :: p2) := by
        intro hm
        rcases List.mem_cons.mp hm with hm | hm
        · exact absurd hm.symm (by decide)
        · exact hOk.2 (isStart_mem hstart hm)
      have heq := jScan_eq_sScan ('\x7b' :: p2) 0 false none hnb (by simp)
      have hstep0 : sStep (0, false) '\x7b' = (1, false) := by simp [sStep]
      have hmin : scanMin (1, false) (serMembers ms) = 1 := (hOk.1 1).2
      have hge : (1 : Int) ≤ (sScan (1, false) p2).1 :=
        le_trans (le_of_eq hmin.symm) (sScan_fst_ge_scanMin (1, false) hstart)
      have hbrace : (jScanFrom ⟨0, false, none⟩ ('\x7b' :: p2)).brace =
          (sScan (1, false) p2).1 := by
        rw [heq.1, sScan_cons, hstep0]
      show isJsonClosed (String.mk ('\x7b' :: p2)) = false
      unfold isJsonClosed
      have hdata : (String.mk ('\x7b' :: p2)).data = '\x7b' :: p2 := rfl
      rw [hdata]
      have hnonzero : ((jScanFrom ⟨0, false, none⟩ ('\x7b' :: p2)).brace == 0) = false := by
        rw [hbrace]
        exact beq_eq_false_iff_ne.mpr (by omega)
      simp [hnonzero]

/-- JavaScript-style concatenation of a chunk list. -/
def strJoin : List String → String
  | [] => ""
  | c :: cs => c ++ strJoin cs

/-- Feeding any chunking of a string through the aggregator reconstructs it,
provided `isJsonClosed` never fires on a proper initial segment. -/
theorem feed_reconstructs (sFull : String)
    (hnc : ∀ p : List Char, IsStart p sFull.data → p ≠ sFull.data →
      isJsonClosed (String.mk p) = false) :
    ∀ (cs : List String) (buf : String), IsStart buf.data sFull.data →
      buf ++ strJoin cs = sFull → aggFeed buf cs = sFull := by
  intro cs
  induction cs with
  | nil =>
    intro buf _ hjoin
    rw [show strJoin [] = "" from rfl, String.append_empty] at hjoin
    exact hjoin
  | cons c cs ih =>
    intro buf hstart hjoin
    rw [show strJoin (c :: cs) = c ++ strJoin cs from rfl] at hjoin
    show aggFeed (argStep buf c) cs = sFull
    by_cases hfull : buf = sFull
    · subst hfull
      have hdat : buf.data ++ (c.data ++ (strJoin cs).data) = buf.data := by
        have := congrArg String.data hjoin
        rwa [String.data_append, String.data_append] at this
      have hboth : c.data = [] ∧ (strJoin cs).data = [] := by
        have h2 : buf.data ++ (c.data ++ (strJoin cs).data) = buf.data ++ [] := by
          rw [hdat, List.append_nil]
        have h3 : c.data ++ (strJoin cs).data = [] := by
          have hlen := congrArg List.length h2
          simp at hlen
          rcases hlen with ⟨hc, hs⟩
          rw [List.length_eq_zero.mp hc, List.length_eq_zero.mp hs]
          rfl
        exact List.append_eq_nil.mp h3
      have hcE : c = "" := strExt hboth.1
      have hjE : strJoin cs = "" := strExt hboth.2
      rw [hcE, show argStep buf "" = buf from by simp [argStep]]
      exact ih buf hstart (by rw [hjE, String.append_empty])
    · have hclosed : isJsonClosed buf = false := by
        have := hnc buf.data hstart (fun h => hfull (strExt h))
        rwa [mk_data] at this
      by_cases hcE : c = ""
      · subst hcE
        rw [show argStep buf "" = buf from by simp [argStep]]
        exact ih buf hstart (by rwa [String.empty_append] at hjoin)
      · rw [show argStep buf c = buf ++ c from by simp [argStep, hcE, hclosed]]
        have hjoin2 : (buf ++ c) ++ strJoin cs = sFull := by
          rw [String.append_assoc]
          exact hjoin
        apply ih (buf ++ c)
        · exact ⟨(strJoin cs).data, by rw [← String.data_append, hjoin2]⟩
        · exact hjoin2

/-- C1 (amended): for every complete JSON argument string that is the
serialization of an object free of escape sequences (its keys and string
values contain no `"` or `\\`), every way of splitting it into N ≥ 1 chunks
(`c0 :: cs`) fed as successive argument fragments at the same slot and id
reconstructs exactly the original string: the already-closed guard never
rejects a fragment while the buffer is a proper prefix of the original.
(With escape sequences present the guard can misfire — see the
counterexample theorem.) -/
theorem split_reconstruction (ms : JvM) (c0 : String) (cs : List String)
    (hs : safeM ms = true)
    (hsplit : c0 ++ strJoin cs = String.mk (serV (.jobj ms))) :
    aggFeed c0 cs = String.mk (serV (.jobj ms)) := by
  apply feed_reconstructs
  · intro p hp hne
    exact properStart_not_closed ms hs p hp hne
  · exact ⟨(strJoin cs).data, by rw [← String.data_append, hsplit]⟩
  · exact hsplit

/-- Witness for C1's amended theorem: `\x7b"city":"Paris"\x7d` split into
three chunks. -/
theorem split_reconstruction_witness :
    safeM (.cons "city" (.jstr "Paris") .nil) = true
    ∧ "\x7b\"city\"" ++ strJoin [":\"Par", "is\"\x7d"] =
        String.mk (serV (.jobj (.cons "city" (.jstr "Paris") .nil)))
    ∧ aggFeed "\x7b\"city\"" [":\"Par", "is\"\x7d"] =
        String.mk (serV (.jobj (.cons "city" (.jstr "Paris") .nil))) :=
  ⟨by decide, by decide,
    split_reconstruction (.cons "city" (.jstr "Paris") .nil) "\x7b\"city\""
      [":\"Par", "is\"\x7d"] (by decide) (by decide)⟩

/-- C1 counterexample: the valid JSON object `\x7b"a":"\\\\","\x7d":1\x7d` — the
serialization of the object binding "a" to the one-character string `\\` and
the key `\x7d` to 1 — split after its 12th character.  The escaped backslash
immediately before a closing quote desynchronizes the guard's quote
tracking, `isJsonClosed` reports the proper prefix as closed, the second
chunk is rejected, and the reconstructed buffer differs from the original. -/
theorem guard_rejects_mid_string :
    String.mk (serV (.jobj (.cons "a" (.jstr "\\") (.cons "\x7d" (.jnum 1) .nil)))) =
      "\x7b\"a\":\"\\\\\",\"\x7d" ++ "\":1\x7d"
    ∧ isJsonClosed "\x7b\"a\":\"\\\\\",\"\x7d" = true
    ∧ aggFeed "\x7b\"a\":\"\\\\\",\"\x7d" ["\":1\x7d"] = "\x7b\"a\":\"\\\\\",\"\x7d"
    ∧ aggFeed "\x7b\"a\":\"\\\\\",\"\x7d" ["\":1\x7d"] ≠
        String.mk (serV (.jobj (.cons "a" (.jstr "\\") (.cons "\x7d" (.jnum 1) .nil)))) := by
  refine ⟨by decide, by decide, by decide, by decide⟩

end Tactus
